import Mathlib

/-!
# sync-mount-path: a model of `syncPathsThreads.cpp`

The program copies a directory tree with `std::filesystem` calls.  The file
system is modelled as an inode table; paths are absolute, given as their list
of name components.  Every `std::filesystem` call used by the source is
modelled on that table, with symbolic links resolved the way the kernel does
(relative targets are resolved against the directory holding the link, and a
resolution that passes more than `symloopMax` links fails with `ELOOP`).

Threads are modelled twice.  The definitions `cpFile` .. `cpDirectory` follow
one schedule, the one in which a thread body runs to completion at the point
where the thread is created (`threads.emplace_back(f, ...)`); the `spawn` and
`join` events record when the thread object is created and joined.  They serve
to evaluate the program on concrete inputs and for the properties that do not
depend on the schedule.  The definitions of the namespace `Interleaved` follow
each thread by itself and let the other threads change the file system before
each of its calls; they serve for what is claimed of every interleaving.
An exception that escapes a `std::filesystem` call ends the process
(`std::terminate`); the model records it as `Status.aborted`.
-/

namespace SyncMountPath

/-- An absolute path, as its list of name components. -/
abbrev Path := List String

/-- An inode.  A directory holds its entries, `.` and `..` among them, as they
are on disk; `other` stands for fifos, sockets and device nodes. -/
inductive Node where
  | dir (entries : List (String × Nat))
  | file (content : List Nat) (readable writable : Bool)
  | symlink (target : Path) (absolute : Bool)
  | other
  deriving DecidableEq, Repr

/-- A file system: the inode table (inode `0` is the root directory) and the
kernel's bound on the number of symbolic links passed in one resolution
(`MAXSYMLINKS`, 40 on Linux). -/
structure FS where
  nodes : List Node
  symloopMax : Nat
  deriving DecidableEq, Repr

/-- Outcome of a path resolution. `missing c n`: every component but the last
resolved, to directory `c`, which has no entry `n` (`ENOENT`, the name can be
created).  `notFound`: any other `ENOENT` or `ENOTDIR`.  `loop`: `ELOOP`. -/
inductive Res where
  | found (i : Nat)
  | missing (parent : Nat) (name : String)
  | notFound
  | loop
  deriving DecidableEq, Repr

/-- One pass over the components from directory inode `c`; a symbolic link met
on the way is handed to `k` with the directory to restart from and the
remaining path.  The components `.` and `..` are looked up like any other
name: they are entries of every directory.  `followLast = false` gives `lstat`
behaviour. -/
def walk (fs : FS) (k : Nat → Path → Res) (followLast : Bool) : Nat → Path → Res
  | c, [] => .found c
  | c, n :: rest =>
    match fs.nodes[c]? with
    | some (.dir es) =>
      match es.lookup n with
      | none => if rest = [] then .missing c n else .notFound
      | some i =>
        match fs.nodes[i]? with
        | some (.symlink t a) =>
          if rest = [] ∧ followLast = false then .found i
          else k (if a then 0 else c) (t ++ rest)
        | some _ => walk fs k followLast i rest
        | none => .notFound
    | _ => .notFound

/-- Resolution with a budget of symbolic links. -/
def resolveN (fs : FS) (followLast : Bool) : Nat → Nat → Path → Res
  | 0 => fun _ _ => .loop
  | b + 1 => walk fs (resolveN fs followLast b) followLast

/-- Model of `stat(2)`: the last component is followed. -/
def stat (fs : FS) (p : Path) : Res := resolveN fs true (fs.symloopMax + 1) 0 p

/-- Model of `lstat(2)`: the last component is not followed. -/
def lstat (fs : FS) (p : Path) : Res := resolveN fs false (fs.symloopMax + 1) 0 p

/-- Values of `fs::file_type` the program distinguishes. -/
inductive FileType where
  | notFound | directory | regular | symlink | other
  deriving DecidableEq, Repr

def nodeType : Option Node → FileType
  | some (.dir _) => .directory
  | some (.file _ _ _) => .regular
  | some (.symlink _ _) => .symlink
  | some .other => .other
  | none => .notFound

/-- Turns a resolution into a `file_status`; `none` is a thrown
`filesystem_error` (any error that is not "not found"). -/
def typeOfRes (fs : FS) : Res → Option FileType
  | .found i => some (nodeType (fs.nodes[i]?))
  | .missing _ _ => some .notFound
  | .notFound => some .notFound
  | .loop => none

/-- Model of `fs::status(p)`. -/
def status (fs : FS) (p : Path) : Option FileType := typeOfRes fs (stat fs p)

/-- Model of `fs::symlink_status(p)`. -/
def symlink_status (fs : FS) (p : Path) : Option FileType := typeOfRes fs (lstat fs p)

/-- Model of `fs::exists(p)`. -/
def «exists» (fs : FS) (p : Path) : Option Bool :=
  (status fs p).map (fun t => decide (t ≠ .notFound))

/-- Model of `fs::is_directory(p)`. -/
def is_directory (fs : FS) (p : Path) : Option Bool :=
  (status fs p).map (fun t => decide (t = .directory))

/-- Model of `fs::is_regular_file(p)`. -/
def is_regular_file (fs : FS) (p : Path) : Option Bool :=
  (status fs p).map (fun t => decide (t = .regular))

/-- Model of `fs::is_symlink(p)`. -/
def is_symlink (fs : FS) (p : Path) : Option Bool :=
  (symlink_status fs p).map (fun t => decide (t = .symlink))

/-! ## Updates of the inode table -/

def setNode (fs : FS) (i : Nat) (nd : Node) : FS :=
  { fs with nodes := fs.nodes.set i nd }

/-- Adds the directory entry `(n, i)` to directory inode `c`. -/
def addEntry (fs : FS) (c : Nat) (n : String) (i : Nat) : FS :=
  match fs.nodes[c]? with
  | some (.dir es) => setNode fs c (.dir (es ++ [(n, i)]))
  | _ => fs

/-- Allocates a new inode holding `nd` and enters it as `n` in directory `c`. -/
def addNode (fs : FS) (c : Nat) (n : String) (nd : Node) : FS :=
  addEntry { fs with nodes := fs.nodes ++ [nd] } c n fs.nodes.length

/-- Number of directory entries of one inode that refer to inode `i`. -/
def entriesTo (i : Nat) : Node → Nat
  | .dir es => (es.filter (fun e => e.2 = i)).length
  | _ => 0

/-- Link count of inode `i`: the number of directory entries referring to it. -/
def linkCount (fs : FS) (i : Nat) : Nat :=
  (fs.nodes.map (entriesTo i)).sum

/-- Model of `fs::hard_link_count(p)`; `none` is a thrown error. -/
def hard_link_count (fs : FS) (p : Path) : Option Nat :=
  match stat fs p with
  | .found i => some (linkCount fs i)
  | _ => none

/-- Model of `fs::read_symlink(p)`: the stored target; `none` is a thrown
error (`p` is not a symbolic link). -/
def read_symlink (fs : FS) (p : Path) : Option (Path × Bool) :=
  match lstat fs p with
  | .found i =>
    match fs.nodes[i]? with
    | some (.symlink t a) => some (t, a)
    | _ => none
  | _ => none

/-- Model of `fs::create_symlink(target, p)`: `symlink(2)` fails with `EEXIST`
when any entry, a dangling link included, is at `p`; `none` is a thrown
error. -/
def create_symlink (fs : FS) (target : Path × Bool) (p : Path) : Option FS :=
  match lstat fs p with
  | .missing c n => some (addNode fs c n (.symlink target.1 target.2))
  | _ => none

/-- Model of `link(2)`: the new state and whether the call returned `0`. -/
def link (fs : FS) (s d : Path) : FS × Bool :=
  match lstat fs s with
  | .found i =>
    match fs.nodes[i]? with
    | some (.dir _) => (fs, false)
    | none => (fs, false)
    | some _ =>
      match lstat fs d with
      | .missing c n => (addEntry fs c n i, true)
      | _ => (fs, false)
  | _ => (fs, false)

/-- One `mkdir` step of `create_directories` on the path `p`: an existing
directory is kept, a missing name becomes a new directory holding its entries
`.` and `..`, anything else is an error. -/
def mkdirStep (fs : FS) (p : Path) : Option FS :=
  match stat fs p with
  | .found i =>
    match fs.nodes[i]? with
    | some (.dir _) => some fs
    | _ => none
  | .loop => none
  | _ =>
    match lstat fs p with
    | .missing c n => some (addNode fs c n (.dir [(".", fs.nodes.length), ("..", c)]))
    | _ => none

/-- Creates the components `rest` one after the other below `done`. -/
def createFrom (fs : FS) (done : Path) : Path → Option FS
  | [] => mkdirStep fs done
  | n :: rest =>
    match mkdirStep fs done with
    | some fs1 => createFrom fs1 (done ++ [n]) rest
    | none => none

/-- Model of `fs::create_directories(p)`; `none` is a thrown error. -/
def create_directories (fs : FS) (p : Path) : Option FS := createFrom fs [] p

/-- Model of `fs::directory_iterator(p)`: the names of the entries of the
directory `p` resolves to, without `.` and `..`, which the iterator skips;
`none` is a thrown error. -/
def directory_iterator (fs : FS) (p : Path) : Option (List String) :=
  match stat fs p with
  | .found i =>
    match fs.nodes[i]? with
    | some (.dir es) =>
      some ((es.map Prod.fst).filter (fun x => decide (x ≠ "." ∧ x ≠ "..")))
    | _ => none
  | _ => none

/-- Model of `std::ifstream(p, binary)`: the inode read from, when the stream
is good.  Only regular files are opened: the program opens no other kind. -/
def openRead (fs : FS) (p : Path) : Option Nat :=
  match stat fs p with
  | .found i =>
    match fs.nodes[i]? with
    | some (.file _ true _) => some i
    | _ => none
  | _ => none

/-- Model of `std::ofstream(p, binary)`: opening truncates an existing file
and creates a missing one; returns the new state and the inode written to,
when the stream is good. -/
def openWrite (fs : FS) (p : Path) : FS × Option Nat :=
  match stat fs p with
  | .found j =>
    match fs.nodes[j]? with
    | some (.file _ r true) => (setNode fs j (.file [] r true), some j)
    | _ => (fs, none)
  | .missing c n => (addNode fs c n (.file [] true true), some fs.nodes.length)
  | _ => (fs, none)

/-- Bytes of the regular file at inode `i`. -/
def contentOf (fs : FS) (i : Nat) : List Nat :=
  match fs.nodes[i]? with
  | some (.file c _ _) => c
  | _ => []

/-- Appends `bytes` to the regular file at inode `j`. -/
def writeTo (fs : FS) (j : Nat) (bytes : List Nat) : FS :=
  match fs.nodes[j]? with
  | some (.file c r w) => setNode fs j (.file (c ++ bytes) r w)
  | _ => fs

/-- Bytes read through the path `p`, when it resolves to a regular file. -/
def readFile (fs : FS) (p : Path) : Option (List Nat) :=
  match stat fs p with
  | .found i =>
    match fs.nodes[i]? with
    | some (.file c _ _) => some c
    | _ => none
  | _ => none

/-! ## The program -/

/-- Lines written to standard output or standard error. -/
inductive Out where
  | copyingFile (s d : Path)
  | failedToGetFile
  | copyingSymlink (s d : Path)
  | hardLinkExists
  | perrorLink
  | copyingDirectory (s d : Path) (numThreads : Int)
  | copying (s d : Path)
  deriving DecidableEq, Repr

/-- The four thread bodies `cpDirectory` can hand to `threads.emplace_back`. -/
inductive Task where
  | cpDirectory (s d : Path) (numThreads : Int)
  | cpSoftLink (s d : Path)
  | cpHardLink (s d : Path)
  | cpFile (s d : Path)
  deriving DecidableEq, Repr

def Task.src : Task → Path
  | .cpDirectory s _ _ => s
  | .cpSoftLink s _ => s
  | .cpHardLink s _ => s
  | .cpFile s _ => s

def Task.dst : Task → Path
  | .cpDirectory _ d _ => d
  | .cpSoftLink _ d => d
  | .cpHardLink _ d => d
  | .cpFile _ d => d

/-- What a run leaves behind, in order: output lines, thread creations
(`threads.emplace_back`), thread joins, and the `link(2)` calls that
returned `0`. -/
inductive Event where
  | out (o : Out)
  | spawn (t : Task)
  | join (t : Task)
  | linkOk (s d : Path)
  deriving DecidableEq, Repr

/-- How a call ended: it returned, an exception ended the process, or the
model ran out of fuel. -/
inductive Status where
  | ok | aborted | outOfFuel
  deriving DecidableEq, Repr

structure Run where
  fs : FS
  log : List Event
  st : Status
  deriving DecidableEq, Repr

/-- Model of `cpFile`: both streams are opened (the destination is created or
truncated) before either is tested. -/
def cpFile (fs : FS) (srcPath dstPath : Path) : Run :=
  let hd := Event.out (.copyingFile srcPath dstPath)
  let srcFile := openRead fs srcPath
  let w := openWrite fs dstPath
  match srcFile, w.2 with
  | some i, some j => ⟨writeTo w.1 j (contentOf w.1 i), [hd], .ok⟩
  | _, _ => ⟨w.1, [hd, .out .failedToGetFile], .ok⟩

/-- Model of `cpSoftLink`. -/
def cpSoftLink (fs : FS) (srcPath dstPath : Path) : Run :=
  let hd := Event.out (.copyingSymlink srcPath dstPath)
  match «exists» fs dstPath with
  | none => ⟨fs, [hd], .aborted⟩
  | some true => ⟨fs, [hd], .ok⟩
  | some false =>
    match read_symlink fs srcPath with
    | none => ⟨fs, [hd], .aborted⟩
    | some t =>
      match create_symlink fs t dstPath with
      | none => ⟨fs, [hd], .aborted⟩
      | some fs1 => ⟨fs1, [hd], .ok⟩

/-- Model of `cpHardLink`. -/
def cpHardLink (fs : FS) (srcPath dstPath : Path) : Run :=
  match «exists» fs dstPath with
  | none => ⟨fs, [], .aborted⟩
  | some true => ⟨fs, [.out .hardLinkExists], .ok⟩
  | some false =>
    match hard_link_count fs srcPath with
    | none => ⟨fs, [], .aborted⟩
    | some c =>
      if c > 1 then
        let r := link fs srcPath dstPath
        if r.2 then ⟨r.1, [.linkOk srcPath dstPath], .ok⟩
        else ⟨r.1, [.out .perrorLink], .ok⟩
      else ⟨fs, [], .ok⟩

/-- The `if` / `else if` chain in the loop of `cpDirectory`: `none` is a thrown
error, `some none` is a child for which no thread is created. -/
def dispatch (fs : FS) (srcFilePath dstFilePath : Path) (numThreads : Int) :
    Option (Option Task) :=
  match is_directory fs srcFilePath with
  | none => none
  | some true => some (some (.cpDirectory srcFilePath dstFilePath numThreads))
  | some false =>
    match is_symlink fs srcFilePath with
    | none => none
    | some true => some (some (.cpSoftLink srcFilePath dstFilePath))
    | some false =>
      match is_regular_file fs srcFilePath with
      | none => none
      | some false => some none
      | some true =>
        match hard_link_count fs srcFilePath with
        | none => none
        | some c =>
          if c > 1 then some (some (.cpHardLink srcFilePath dstFilePath))
          else some (some (.cpFile srcFilePath dstFilePath))

/-- Runs a thread body; `recur` is the recursive `cpDirectory`. -/
def runTask (recur : FS → Path → Path → Int → Run) (fs : FS) : Task → Run
  | .cpDirectory s d n => recur fs s d n
  | .cpSoftLink s d => cpSoftLink fs s d
  | .cpHardLink s d => cpHardLink fs s d
  | .cpFile s d => cpFile fs s d

/-- The `for` loop of `cpDirectory` over the entry names; returns the run and
the `threads` vector.  This is one schedule: each thread body runs where its
thread is created, and the loop ends where a body throws, the process being
terminated there.  `Interleaved.cpLoop` makes no such choice. -/
def cpLoop (recur : FS → Path → Path → Int → Run) (srcPath dstPath : Path)
    (numThreads : Int) : FS → List String → Run × List Task
  | fs, [] => (⟨fs, [], .ok⟩, [])
  | fs, name :: names =>
    let srcFilePath := srcPath ++ [name]
    let dstFilePath := dstPath ++ [name]
    let hd := Event.out (.copying srcFilePath dstFilePath)
    match dispatch fs srcFilePath dstFilePath numThreads with
    | none => (⟨fs, [hd], .aborted⟩, [])
    | some none =>
      let r := cpLoop recur srcPath dstPath numThreads fs names
      (⟨r.1.fs, hd :: r.1.log, r.1.st⟩, r.2)
    | some (some t) =>
      let r1 := runTask recur fs t
      match r1.st with
      | .ok =>
        let r := cpLoop recur srcPath dstPath numThreads r1.fs names
        (⟨r.1.fs, hd :: .spawn t :: (r1.log ++ r.1.log), r.1.st⟩, t :: r.2)
      | st => (⟨r1.fs, hd :: .spawn t :: r1.log, st⟩, [t])

/-- Model of `cpDirectory`; the first argument bounds the recursion depth. -/
def cpDirectory : Nat → FS → Path → Path → Int → Run
  | 0, fs, _, _, _ => ⟨fs, [], .outOfFuel⟩
  | fuel + 1, fs, srcPath, dstPath, numThreads =>
    let hd := Event.out (.copyingDirectory srcPath dstPath numThreads)
    match create_directories fs dstPath with
    | none => ⟨fs, [hd], .aborted⟩
    | some fs1 =>
      match directory_iterator fs1 srcPath with
      | none => ⟨fs1, [hd], .aborted⟩
      | some names =>
        let r := cpLoop (cpDirectory fuel) srcPath dstPath numThreads fs1 names
        match r.1.st with
        | .ok => ⟨r.1.fs, hd :: (r.1.log ++ r.2.map Event.join), .ok⟩
        | st => ⟨r.1.fs, hd :: r.1.log, st⟩

/-- Number of threads created and not yet joined after each event of a log,
starting from `k`. -/
def inFlight : Nat → List Event → List Nat
  | _, [] => []
  | k, .spawn _ :: es => (k + 1) :: inFlight (k + 1) es
  | k, .join _ :: es => (k - 1) :: inFlight (k - 1) es
  | k, _ :: es => k :: inFlight k es

/-- Largest number of threads created and not yet joined during a log. -/
def peakInFlight (log : List Event) : Nat := (inFlight 0 log).foldl max 0

/-- The task `t` works on `src/c1/../ck` and `dst/c1/../ck` for one non-empty
sequence of components. -/
def Under (src dst : Path) (t : Task) : Prop :=
  ∃ cs : List String, cs ≠ [] ∧ t.src = src ++ cs ∧ t.dst = dst ++ cs

/-- The node `nd2` may stand where `nd1` stood: same kind; a directory keeps
the entries it had, a file keeps its permissions, a symbolic link keeps its
target. -/
def NodeExt : Node → Node → Prop
  | .dir es, .dir es2 => ∀ n j, es.lookup n = some j → es2.lookup n = some j
  | .file _ r w, .file _ r2 w2 => r = r2 ∧ w = w2
  | .symlink t a, .symlink t2 a2 => t = t2 ∧ a = a2
  | .other, .other => True
  | _, _ => False

/-- The file system `fs2` extends `fs1`: no inode and no directory entry of
`fs1` is removed or changes its kind; file contents may differ. -/
structure Grows (fs1 fs2 : FS) : Prop where
  loopMax : fs2.symloopMax = fs1.symloopMax
  node : ∀ (i : Nat) (nd : Node), fs1.nodes[i]? = some nd → ∃ nd2, fs2.nodes[i]? = some nd2 ∧ NodeExt nd nd2

/-- The paths a line of output prints. -/
def Out.paths : Out → List Path
  | .copyingFile s d => [s, d]
  | .failedToGetFile => []
  | .copyingSymlink s d => [s, d]
  | .hardLinkExists => []
  | .perrorLink => []
  | .copyingDirectory s d _ => [s, d]
  | .copying s d => [s, d]

/-- The lines that report a failure: `Failed to get the file.` and the
`perror` line of `cpHardLink`. -/
def Event.isFailure : Event → Bool
  | .out .failedToGetFile => true
  | .out .perrorLink => true
  | _ => false

/-! ## Concrete file systems -/

/-- The scenario `root/{a.txt, sub/b.txt, link -> a.txt}` as `/src`. -/
def fsScenario : FS :=
  ⟨[.dir [(".", 0), ("..", 0), ("src", 1)],
    .dir [(".", 1), ("..", 0), ("a.txt", 2), ("sub", 3), ("link", 5)],
    .file [1, 2, 3] true true, .dir [(".", 3), ("..", 1), ("b.txt", 4)],
    .file [7] true true, .symlink ["a.txt"] false], 40⟩

/-- The tree `/src/{d/f, l -> d}`: a symbolic link to a directory. -/
def fsLinkToDir : FS :=
  ⟨[.dir [(".", 0), ("..", 0), ("src", 1)], .dir [(".", 1), ("..", 0), ("d", 2), ("l", 4)],
    .dir [(".", 2), ("..", 1), ("f", 3)], .file [9] true true, .symlink ["d"] false], 40⟩

/-- The tree `/src/{g/h, k -> /src/g}`: an absolute link to a directory. -/
def fsAbsLinkToDir : FS :=
  ⟨[.dir [(".", 0), ("..", 0), ("src", 1)], .dir [(".", 1), ("..", 0), ("g", 2), ("k", 4)],
    .dir [(".", 2), ("..", 1), ("h", 3)], .file [5, 6] true true,
    .symlink ["src", "g"] true], 40⟩

/-- The tree `/src/{x -> nowhere}`: a dangling symbolic link. -/
def fsDangling : FS :=
  ⟨[.dir [(".", 0), ("..", 0), ("src", 1)], .dir [(".", 1), ("..", 0), ("x", 2)],
    .symlink ["nowhere"] false], 40⟩

/-- The tree `/src/{p, q}`: two regular files. -/
def fsTwoFiles : FS :=
  ⟨[.dir [(".", 0), ("..", 0), ("src", 1)], .dir [(".", 1), ("..", 0), ("p", 2), ("q", 3)],
    .file [1] true true, .file [2] true true], 40⟩

/-- The tree `/src/{loop -> /src}`: a link to the directory that holds it. -/
def fsLoop : FS :=
  ⟨[.dir [(".", 0), ("..", 0), ("src", 1)], .dir [(".", 1), ("..", 0), ("loop", 2)],
    .symlink ["src"] true], 40⟩

/-- The files `/s` (with content) and `/d -> s`, a link to it. -/
def fsLinkToSource : FS :=
  ⟨[.dir [(".", 0), ("..", 0), ("s", 1), ("d", 2)], .file [1, 2, 3] true true,
    .symlink ["s"] false], 40⟩

/-- The single file `/s`. -/
def fsOneFile : FS :=
  ⟨[.dir [(".", 0), ("..", 0), ("s", 1)], .file [1, 2, 3] true true], 40⟩

/-- The tree `/src/{pipe}` where `pipe` is a fifo. -/
def fsFifo : FS :=
  ⟨[.dir [(".", 0), ("..", 0), ("src", 1)], .dir [(".", 1), ("..", 0), ("pipe", 2)],
    .other], 40⟩

/-- The tree `/src/{o, u}` with `u` unreadable, and a destination `/dest` that
already holds `u -> o`. -/
def fsUnreadable : FS :=
  ⟨[.dir [(".", 0), ("..", 0), ("src", 1), ("dest", 4)],
    .dir [(".", 1), ("..", 0), ("o", 2), ("u", 3)], .file [1, 2] true true,
    .file [9] false true, .dir [(".", 4), ("..", 0), ("u", 5)], .symlink ["o"] false], 40⟩

/-- The file system `fsUnreadable` without the entry of the unreadable file. -/
def fsUnreadableAbsent : FS :=
  ⟨[.dir [(".", 0), ("..", 0), ("src", 1), ("dest", 4)],
    .dir [(".", 1), ("..", 0), ("o", 2)], .file [1, 2] true true,
    .file [9] false true, .dir [(".", 4), ("..", 0), ("u", 5)], .symlink ["o"] false], 40⟩

/-- The tasks for which a log records a thread creation, in order. -/
def spawned : List Event → List Task
  | [] => []
  | .spawn t :: es => t :: spawned es
  | _ :: es => spawned es

/-! ## The program under every interleaving of its threads

The definitions above run a thread body at the point where the thread is
created.  The definitions of this section make no such choice.  Each thread
is followed through its own calls; before each call the file system may have
been changed by the other threads, and `env tid l fs` is the file system the
thread `tid` finds at its call `l` when `fs` is the file system it left after
its previous call.  What the threads it created did reaches a thread only that
way; after the joins its file system holds what each of them left, which is
recorded as a list of pairs (file system left by a created thread, file system
after the joins).  A thread is named by its position in the tree of threads:
the thread created for the `j`-th entry by the thread `tid` is `tid ++ [j]`. -/

/-- The calls of a thread before which other threads may have run. -/
inductive Label where
  | mkdir (j : Nat)
  | list
  | classify (entry call : Nat)
  | join
  | call (j : Nat)
  deriving DecidableEq, Repr

/-- What the other threads do to the file system before each call of each
thread. -/
abbrev Interference := List Nat → Label → FS → FS

/-- A step no call of the program undoes: nothing of `fs1` is removed and no
link count drops. -/
def Steps (fs1 fs2 : FS) : Prop :=
  Grows fs1 fs2 ∧ ∀ i, linkCount fs1 i ≤ linkCount fs2 i

namespace Interleaved

/-- The body of `cpFile` as a thread: the two streams are opened, then the
source is read and the destination written. -/
def cpFile (env : Interference) (tid : List Nat) (fs : FS) (srcPath dstPath : Path) : Run :=
  let hd := Event.out (.copyingFile srcPath dstPath)
  let a := env tid (.call 0) fs
  let srcFile := openRead a srcPath
  let w := openWrite (env tid (.call 1) a) dstPath
  match srcFile, w.2 with
  | some i, some j =>
    let c := env tid (.call 2) w.1
    ⟨writeTo (env tid (.call 3) c) j (contentOf c i), [hd], .ok⟩
  | _, _ => ⟨w.1, [hd, .out .failedToGetFile], .ok⟩

/-- The body of `cpSoftLink` as a thread. -/
def cpSoftLink (env : Interference) (tid : List Nat) (fs : FS) (srcPath dstPath : Path) :
    Run :=
  let hd := Event.out (.copyingSymlink srcPath dstPath)
  let a := env tid (.call 0) fs
  match «exists» a dstPath with
  | none => ⟨a, [hd], .aborted⟩
  | some true => ⟨a, [hd], .ok⟩
  | some false =>
    let b := env tid (.call 1) a
    match read_symlink b srcPath with
    | none => ⟨b, [hd], .aborted⟩
    | some t =>
      let c := env tid (.call 2) b
      match create_symlink c t dstPath with
      | none => ⟨c, [hd], .aborted⟩
      | some fs1 => ⟨fs1, [hd], .ok⟩

/-- The body of `cpHardLink` as a thread. -/
def cpHardLink (env : Interference) (tid : List Nat) (fs : FS) (srcPath dstPath : Path) :
    Run :=
  let a := env tid (.call 0) fs
  match «exists» a dstPath with
  | none => ⟨a, [], .aborted⟩
  | some true => ⟨a, [.out .hardLinkExists], .ok⟩
  | some false =>
    let b := env tid (.call 1) a
    match hard_link_count b srcPath with
    | none => ⟨b, [], .aborted⟩
    | some c =>
      if c > 1 then
        let r := link (env tid (.call 2) b) srcPath dstPath
        if r.2 then ⟨r.1, [.linkOk srcPath dstPath], .ok⟩
        else ⟨r.1, [.out .perrorLink], .ok⟩
      else ⟨b, [], .ok⟩

/-- The `if` / `else if` chain for the `j`-th entry: the task chosen (as in
`SyncMountPath.dispatch`) and the file system after the last test made. -/
def dispatch (env : Interference) (tid : List Nat) (j : Nat) (fs : FS)
    (srcFilePath dstFilePath : Path) (numThreads : Int) : Option (Option Task) × FS :=
  let a := env tid (.classify j 0) fs
  match is_directory a srcFilePath with
  | none => (none, a)
  | some true => (some (some (.cpDirectory srcFilePath dstFilePath numThreads)), a)
  | some false =>
    let b := env tid (.classify j 1) a
    match is_symlink b srcFilePath with
    | none => (none, b)
    | some true => (some (some (.cpSoftLink srcFilePath dstFilePath)), b)
    | some false =>
      let c := env tid (.classify j 2) b
      match is_regular_file c srcFilePath with
      | none => (none, c)
      | some false => (some none, c)
      | some true =>
        let e := env tid (.classify j 3) c
        match hard_link_count e srcFilePath with
        | none => (none, e)
        | some k =>
          if k > 1 then (some (some (.cpHardLink srcFilePath dstFilePath)), e)
          else (some (some (.cpFile srcFilePath dstFilePath)), e)

/-- Runs the thread `tid` on a thread body; the second component lists what
the joins inside it have to hold. -/
def runTask (recur : List Nat → FS → Path → Path → Int → Run × List (FS × FS))
    (env : Interference) (tid : List Nat) (fs : FS) : Task → Run × List (FS × FS)
  | .cpDirectory s d n => recur tid fs s d n
  | .cpSoftLink s d => (cpSoftLink env tid fs s d, [])
  | .cpHardLink s d => (cpHardLink env tid fs s d, [])
  | .cpFile s d => (cpFile env tid fs s d, [])

/-- Result of the `for` loop of one `cpDirectory` thread: its own file system,
the events of the thread and of the threads below it, the status, the file
systems the threads it created left, and what the joins below have to hold. -/
structure Loop where
  fs : FS
  log : List Event
  st : Status
  finals : List FS
  joins : List (FS × FS)

/-- The `for` loop of `cpDirectory` from entry number `j` on.  A created
thread starts from the file system of its creator and does not change it. -/
def cpLoop (recur : List Nat → FS → Path → Path → Int → Run × List (FS × FS))
    (env : Interference) (tid : List Nat) (srcPath dstPath : Path) (numThreads : Int) :
    Nat → FS → List String → Loop
  | _, fs, [] => ⟨fs, [], .ok, [], []⟩
  | j, fs, name :: names =>
    let srcFilePath := srcPath ++ [name]
    let dstFilePath := dstPath ++ [name]
    let hd := Event.out (.copying srcFilePath dstFilePath)
    let c := dispatch env tid j fs srcFilePath dstFilePath numThreads
    match c.1 with
    | none => ⟨c.2, [hd], .aborted, [], []⟩
    | some none =>
      let r := cpLoop recur env tid srcPath dstPath numThreads (j + 1) c.2 names
      ⟨r.fs, hd :: r.log, r.st, r.finals, r.joins⟩
    | some (some t) =>
      let r1 := runTask recur env (tid ++ [j]) c.2 t
      let r := cpLoop recur env tid srcPath dstPath numThreads (j + 1) c.2 names
      ⟨r.fs, hd :: .spawn t :: (r1.1.log ++ r.log),
        match r1.1.st with
        | .ok => r.st
        | st => st,
        r1.1.fs :: r.finals, r1.2 ++ r.joins⟩

/-- The `mkdir` steps of `create_directories`, other threads running in
between. -/
def createFrom (env : Interference) (tid : List Nat) :
    FS → Path → Nat → Path → Option FS
  | fs, done, j, [] => mkdirStep (env tid (.mkdir j) fs) done
  | fs, done, j, n :: rest =>
    match mkdirStep (env tid (.mkdir j) fs) done with
    | some fs1 => createFrom env tid fs1 (done ++ [n]) (j + 1) rest
    | none => none

/-- The call `fs::create_directories(p)` of the thread `tid`. -/
def create_directories (env : Interference) (tid : List Nat) (fs : FS) (p : Path) :
    Option FS :=
  createFrom env tid fs [] 0 p

/-- The body of `cpDirectory` as the thread `tid`; the first argument bounds
the recursion depth.  The result holds the file system after the joins. -/
def cpDirectory (env : Interference) :
    Nat → List Nat → FS → Path → Path → Int → Run × List (FS × FS)
  | 0, _, fs, _, _, _ => (⟨fs, [], .outOfFuel⟩, [])
  | fuel + 1, tid, fs, srcPath, dstPath, numThreads =>
    let hd := Event.out (.copyingDirectory srcPath dstPath numThreads)
    match create_directories env tid fs dstPath with
    | none => (⟨fs, [hd], .aborted⟩, [])
    | some fs1 =>
      let a := env tid .list fs1
      match directory_iterator a srcPath with
      | none => (⟨a, [hd], .aborted⟩, [])
      | some names =>
        let r := cpLoop (cpDirectory env fuel) env tid srcPath dstPath numThreads 0 a names
        let joined := env tid .join r.fs
        (⟨joined, hd :: r.log, r.st⟩, r.finals.map (fun f => (f, joined)) ++ r.joins)

end Interleaved

lemma dispatch_paths {fs : FS} {s d : Path} {n : Int} {t : Task}
    (h : dispatch fs s d n = some (some t)) :
    t.src = s ∧ t.dst = d ∧
      (t = .cpDirectory s d n ∨ t = .cpSoftLink s d ∨ t = .cpHardLink s d ∨ t = .cpFile s d) := by
  unfold dispatch at h
  split at h
  · cases h
  · cases h; simp [Task.src, Task.dst]
  · split at h
    · cases h
    · cases h; simp [Task.src, Task.dst]
    · split at h
      · cases h
      · cases h
      · split at h
        · cases h
        · split at h <;> cases h <;> simp [Task.src, Task.dst]

lemma cpFile_no_spawn (fs : FS) (s d : Path) (t : Task) :
    Event.spawn t ∉ (cpFile fs s d).log := by
  unfold cpFile
  dsimp only
  split <;> simp

lemma cpSoftLink_no_spawn (fs : FS) (s d : Path) (t : Task) :
    Event.spawn t ∉ (cpSoftLink fs s d).log := by
  unfold cpSoftLink
  dsimp only
  split
  · simp
  · simp
  · split
    · simp
    · split <;> simp

lemma cpHardLink_no_spawn (fs : FS) (s d : Path) (t : Task) :
    Event.spawn t ∉ (cpHardLink fs s d).log := by
  unfold cpHardLink
  split
  · simp
  · simp
  · split
    · simp
    · dsimp only
      split
      · split <;> simp
      · simp

lemma under_step {src dst : Path} {name : String} {t : Task}
    (h : Under (src ++ [name]) (dst ++ [name]) t) : Under src dst t := by
  obtain ⟨cs, _, h1, h2⟩ := h
  exact ⟨name :: cs, by simp, by simpa using h1, by simpa using h2⟩

lemma cpLoop_under (recur : FS → Path → Path → Int → Run)
    (hrec : ∀ fs s d n t, Event.spawn t ∈ (recur fs s d n).log → Under s d t)
    (src dst : Path) (n : Int) (names : List String) :
    ∀ fs t, Event.spawn t ∈ (cpLoop recur src dst n fs names).1.log → Under src dst t := by
  induction names with
  | nil => intro fs t h; simp [cpLoop] at h
  | cons name names ih =>
    intro fs t h
    unfold cpLoop at h
    dsimp only at h
    split at h
    · simp at h
    · simp only [List.mem_cons, reduceCtorEq, false_or] at h
      exact ih _ _ h
    · rename_i t0 hd
      have hp := dispatch_paths hd
      have key : ∀ t, Event.spawn t ∈ (runTask recur fs t0).log →
          Under src dst t := by
        intro t ht
        rcases hp.2.2 with h0 | h0 | h0 | h0 <;> subst h0
        · exact under_step (hrec _ _ _ _ _ ht)
        · exact absurd ht (cpSoftLink_no_spawn _ _ _ _)
        · exact absurd ht (cpHardLink_no_spawn _ _ _ _)
        · exact absurd ht (cpFile_no_spawn _ _ _ _)
      have h0 : Under src dst t0 := ⟨[name], by simp, hp.1, hp.2.1⟩
      split at h
      · simp only [List.mem_cons, reduceCtorEq, false_or, Event.spawn.injEq,
          List.mem_append] at h
        rcases h with h | h | h
        · exact h ▸ h0
        · exact key _ h
        · exact ih _ _ h
      · simp only [List.mem_cons, reduceCtorEq, false_or, Event.spawn.injEq] at h
        rcases h with h | h
        · exact h ▸ h0
        · exact key _ h

lemma cpDirectory_under (fuel : Nat) :
    ∀ fs src dst n t, Event.spawn t ∈ (cpDirectory fuel fs src dst n).log →
      Under src dst t := by
  induction fuel with
  | zero => intro fs src dst n t h; simp [cpDirectory] at h
  | succ fuel ih =>
    intro fs src dst n t h
    unfold cpDirectory at h
    dsimp only at h
    split at h
    · simp at h
    · split at h
      · simp at h
      · split at h
        · simp only [List.mem_cons, reduceCtorEq, false_or, List.mem_append,
            List.mem_map, and_false, exists_false, or_false] at h
          exact cpLoop_under _ ih _ _ _ _ _ _ h
        · simp only [List.mem_cons, reduceCtorEq, false_or] at h
          exact cpLoop_under _ ih _ _ _ _ _ _ h

lemma runTask_mono (r1 r2 : FS → Path → Path → Int → Run)
    (h : ∀ fs s d n, (r1 fs s d n).st ≠ .outOfFuel → r2 fs s d n = r1 fs s d n)
    (fs : FS) (t : Task) (hne : (runTask r1 fs t).st ≠ .outOfFuel) :
    runTask r2 fs t = runTask r1 fs t := by
  cases t with
  | cpDirectory s d n => exact h _ _ _ _ hne
  | cpSoftLink s d => rfl
  | cpHardLink s d => rfl
  | cpFile s d => rfl

lemma cpLoop_mono (r1 r2 : FS → Path → Path → Int → Run)
    (h : ∀ fs s d n, (r1 fs s d n).st ≠ .outOfFuel → r2 fs s d n = r1 fs s d n)
    (src dst : Path) (n : Int) (names : List String) :
    ∀ fs, (cpLoop r1 src dst n fs names).1.st ≠ .outOfFuel →
      cpLoop r2 src dst n fs names = cpLoop r1 src dst n fs names := by
  induction names with
  | nil => intro fs _; rfl
  | cons name names ih =>
    intro fs hne
    simp only [cpLoop] at hne ⊢
    cases hd : dispatch fs (src ++ [name]) (dst ++ [name]) n with
    | none => rfl
    | some o =>
      cases o with
      | none =>
        simp only [hd] at hne ⊢
        rw [ih fs hne]
      | some t =>
        simp only [hd] at hne ⊢
        cases hst : (runTask r1 fs t).st with
        | ok =>
          have e := runTask_mono r1 r2 h fs t (by rw [hst]; decide)
          simp only [hst] at hne
          simp only [e, hst]
          rw [ih _ hne]
        | aborted =>
          have e := runTask_mono r1 r2 h fs t (by rw [hst]; decide)
          simp only [e, hst]
        | outOfFuel =>
          simp only [hst] at hne
          exact absurd rfl hne

lemma cpDirectory_succ (fuel : Nat) :
    ∀ fs src dst n, (cpDirectory fuel fs src dst n).st ≠ .outOfFuel →
      cpDirectory (fuel + 1) fs src dst n = cpDirectory fuel fs src dst n := by
  induction fuel with
  | zero => intro fs src dst n h; simp [cpDirectory] at h
  | succ fuel ih =>
    intro fs src dst n h
    rw [cpDirectory.eq_def (fuel + 1 + 1), cpDirectory.eq_def (fuel + 1)]
    rw [cpDirectory.eq_def (fuel + 1)] at h
    dsimp only at h ⊢
    cases hc : create_directories fs dst with
    | none => rfl
    | some fs1 =>
      simp only [hc] at h ⊢
      cases hi : directory_iterator fs1 src with
      | none => rfl
      | some names =>
        simp only [hi] at h ⊢
        have hl : (cpLoop (cpDirectory fuel) src dst n fs1 names).1.st ≠ .outOfFuel := by
          intro hc2
          simp only [hc2] at h
          exact h rfl
        rw [cpLoop_mono (cpDirectory fuel) (cpDirectory (fuel + 1)) ih src dst n names fs1 hl]

lemma cpDirectory_fuel_le {k m : Nat} (hkm : k ≤ m) (fs : FS) (src dst : Path) (n : Int)
    (h : (cpDirectory k fs src dst n).st ≠ .outOfFuel) :
    cpDirectory m fs src dst n = cpDirectory k fs src dst n := by
  induction m, hkm using Nat.le_induction with
  | base => rfl
  | succ m _ ih =>
    rw [← ih]
    exact cpDirectory_succ m fs src dst n (by rw [ih]; exact h)

lemma nodeExt_refl (nd : Node) : NodeExt nd nd := by
  cases nd <;> simp [NodeExt]

lemma nodeExt_trans {a b c : Node} (h1 : NodeExt a b) (h2 : NodeExt b c) : NodeExt a c := by
  cases a <;> cases b <;> cases c <;> simp_all [NodeExt]

lemma grows_refl (fs : FS) : Grows fs fs :=
  ⟨rfl, fun _ nd h => ⟨nd, h, nodeExt_refl nd⟩⟩

lemma grows_trans {a b c : FS} (h1 : Grows a b) (h2 : Grows b c) : Grows a c := by
  refine ⟨h2.loopMax.trans h1.loopMax, fun i nd h => ?_⟩
  obtain ⟨nd2, e2, x2⟩ := h1.node i nd h
  obtain ⟨nd3, e3, x3⟩ := h2.node i nd2 e2
  exact ⟨nd3, e3, nodeExt_trans x2 x3⟩

/-- Found results of one pass survive an extension. -/
lemma walk_found_grows {fs fs2 : FS} (hx : Grows fs fs2) (k k2 : Nat → Path → Res) (f : Bool)
    (hk : ∀ c p i, k c p = .found i → k2 c p = .found i) (p : Path) :
    ∀ c i, walk fs k f c p = .found i → walk fs2 k2 f c p = .found i := by
  induction p with
  | nil => intro c i h; simpa [walk] using h
  | cons n rest ih =>
    intro c i h
    unfold walk at h
    split at h
    · rename_i es hc
      obtain ⟨nd2, e2, x2⟩ := hx.node c _ hc
      cases nd2 <;> simp only [NodeExt] at x2
      rename_i es2
      split at h
      · split at h <;> cases h
      · rename_i j hl
        have hl2 := x2 _ _ hl
        split at h
        · rename_i t a hj
          obtain ⟨nj, ej, xj⟩ := hx.node j _ hj
          cases nj <;> simp only [NodeExt] at xj
          obtain ⟨rfl, rfl⟩ := xj
          unfold walk
          simp only [e2, hl2, ej]
          split at h
          · rename_i hc2; simp only [hc2, and_self, if_true]; exact h
          · rename_i hc2; simp only [hc2, if_false]; exact hk _ _ _ h
        · rename_i nd hns hj
          obtain ⟨nj, ej, xj⟩ := hx.node j _ hj
          have h2 := ih _ _ h
          unfold walk
          simp only [e2, hl2, ej]
          cases nd <;> cases nj <;> simp only [NodeExt] at xj <;> first
            | exact h2
            | exact absurd rfl (hns _ _)
        · cases h
    · cases h

lemma resolveN_found_grows {fs fs2 : FS} (hx : Grows fs fs2) (f : Bool) (b : Nat) :
    ∀ c p i, resolveN fs f b c p = .found i → resolveN fs2 f b c p = .found i := by
  induction b with
  | zero => intro c p i h; simp [resolveN] at h
  | succ b ih =>
    intro c p i h
    simp only [resolveN] at h ⊢
    exact walk_found_grows hx _ _ f ih p c i h

lemma stat_found_grows {fs fs2 : FS} (hx : Grows fs fs2) {p : Path} {i : Nat}
    (h : stat fs p = .found i) : stat fs2 p = .found i := by
  unfold stat at h ⊢
  rw [hx.loopMax]
  exact resolveN_found_grows hx true _ _ _ _ h

lemma setNode_get (fs : FS) (i : Nat) (nd : Node) (j : Nat) :
    (setNode fs i nd).nodes[j]? =
      if i = j then (if i < fs.nodes.length then some nd else none) else fs.nodes[j]? := by
  simp only [setNode]
  exact List.getElem?_set

lemma setNode_grows {fs : FS} {i : Nat} {nd nd2 : Node} (h : fs.nodes[i]? = some nd)
    (hx : NodeExt nd nd2) : Grows fs (setNode fs i nd2) := by
  refine ⟨rfl, fun j ndj hj => ?_⟩
  rw [setNode_get]
  by_cases hij : i = j
  · subst hij
    have hlt : i < fs.nodes.length := by
      rcases List.getElem?_eq_some.mp h with ⟨hlt, _⟩
      exact hlt
    rw [h] at hj
    cases hj
    exact ⟨nd2, by simp [hlt], hx⟩
  · exact ⟨ndj, by simp [hij, hj], nodeExt_refl _⟩

lemma push_get_old {fs : FS} {nd x : Node} {j : Nat} (h : fs.nodes[j]? = some x) :
    (fs.nodes ++ [nd])[j]? = some x := by
  have hlt : j < fs.nodes.length := by
    rcases List.getElem?_eq_some.mp h with ⟨hlt, _⟩
    exact hlt
  rw [List.getElem?_append_left hlt, h]

lemma push_grows (fs : FS) (nd : Node) : Grows fs { fs with nodes := fs.nodes ++ [nd] } :=
  ⟨rfl, fun _ x hj => ⟨x, push_get_old hj, nodeExt_refl _⟩⟩

lemma lookup_append_some {es : List (String × Nat)} {n : String} {j : Nat} (e : String × Nat)
    (h : es.lookup n = some j) : (es ++ [e]).lookup n = some j := by
  rw [List.lookup_append, h]
  rfl

lemma addEntry_grows (fs : FS) (c : Nat) (n : String) (i : Nat) :
    Grows fs (addEntry fs c n i) := by
  unfold addEntry
  split
  · rename_i es hc
    exact setNode_grows hc (fun _ _ h => lookup_append_some _ h)
  · exact grows_refl fs

lemma addNode_grows (fs : FS) (c : Nat) (n : String) (nd : Node) :
    Grows fs (addNode fs c n nd) :=
  grows_trans (push_grows fs nd) (addEntry_grows _ c n _)

/-- A `missing c n` result names a directory without an entry `n`. -/
lemma walk_missing_dir {fs : FS} (k : Nat → Path → Res) (f : Bool) {c : Nat} {n : String}
    (hk : ∀ c0 p, k c0 p = .missing c n →
      ∃ es, fs.nodes[c]? = some (.dir es) ∧ es.lookup n = none) (p : Path) :
    ∀ c0, walk fs k f c0 p = .missing c n →
      ∃ es, fs.nodes[c]? = some (.dir es) ∧ es.lookup n = none := by
  induction p with
  | nil => intro c0 h; simp [walk] at h
  | cons n0 rest ih =>
    intro c0 h
    unfold walk at h
    split at h
    · rename_i es hc
      split at h
      · rename_i hl
        split at h
        · cases h
          exact ⟨es, hc, hl⟩
        · cases h
      · split at h
        · split at h
          · cases h
          · exact hk _ _ h
        · exact ih _ h
        · cases h
    · cases h

lemma resolveN_missing_dir {fs : FS} (f : Bool) {c : Nat} {n : String} (b : Nat) :
    ∀ c0 p, resolveN fs f b c0 p = .missing c n →
      ∃ es, fs.nodes[c]? = some (.dir es) ∧ es.lookup n = none := by
  induction b with
  | zero => intro c0 p h; simp [resolveN] at h
  | succ b ih =>
    intro c0 p h
    simp only [resolveN] at h
    exact walk_missing_dir _ f ih p c0 h

/-- Once the missing name is entered, the path that missed it is found. -/
lemma walk_missing_grows {fs fs2 : FS} (hx : Grows fs fs2) (k k2 : Nat → Path → Res)
    (f : Bool) {c i : Nat} {n : String} {es2 : List (String × Nat)} {nd : Node}
    (hc : fs2.nodes[c]? = some (.dir es2)) (hl : es2.lookup n = some i)
    (hi : fs2.nodes[i]? = some nd) (hnd : f = false ∨ ∀ t a, nd ≠ .symlink t a)
    (hk : ∀ c0 p, k c0 p = .missing c n → k2 c0 p = .found i) (p : Path) :
    ∀ c0, walk fs k f c0 p = .missing c n → walk fs2 k2 f c0 p = .found i := by
  induction p with
  | nil => intro c0 h; simp [walk] at h
  | cons n0 rest ih =>
    intro c0 h
    unfold walk at h
    split at h
    · rename_i es hc0
      obtain ⟨nd2, e2, x2⟩ := hx.node c0 _ hc0
      cases nd2 <;> simp only [NodeExt] at x2
      rename_i es0
      split at h
      · rename_i hl0
        split at h
        · rename_i hr
          cases h
          subst hr
          unfold walk
          simp only [hc, hl, hi]
          cases nd with
          | symlink t a =>
            rcases hnd with hf | hf
            · simp [hf]
            · exact absurd rfl (hf t a)
          | dir es => simp [walk]
          | file c r w => simp [walk]
          | other => simp [walk]
        · cases h
      · rename_i j hl0
        have hl2 := x2 _ _ hl0
        split at h
        · rename_i t a hj
          obtain ⟨nj, ej, xj⟩ := hx.node j _ hj
          cases nj <;> simp only [NodeExt] at xj
          obtain ⟨rfl, rfl⟩ := xj
          unfold walk
          simp only [e2, hl2, ej]
          split at h
          · cases h
          · rename_i hc2; simp only [hc2, if_false]; exact hk _ _ h
        · rename_i nd0 hns hj
          obtain ⟨nj, ej, xj⟩ := hx.node j _ hj
          have h2 := ih _ h
          unfold walk
          simp only [e2, hl2, ej]
          cases nd0 <;> cases nj <;> simp only [NodeExt] at xj <;> first
            | exact h2
            | exact absurd rfl (hns _ _)
        · cases h
    · cases h

lemma resolveN_missing_grows {fs fs2 : FS} (hx : Grows fs fs2) (f : Bool) {c i : Nat}
    {n : String} {es2 : List (String × Nat)} {nd : Node}
    (hc : fs2.nodes[c]? = some (.dir es2)) (hl : es2.lookup n = some i)
    (hi : fs2.nodes[i]? = some nd) (hnd : f = false ∨ ∀ t a, nd ≠ .symlink t a) (b : Nat) :
    ∀ c0 p, resolveN fs f b c0 p = .missing c n → resolveN fs2 f b c0 p = .found i := by
  induction b with
  | zero => intro c0 p h; simp [resolveN] at h
  | succ b ih =>
    intro c0 p h
    simp only [resolveN] at h ⊢
    exact walk_missing_grows hx _ _ f hc hl hi hnd ih p c0 h

lemma get_lt {fs : FS} {i : Nat} {nd : Node} (h : fs.nodes[i]? = some nd) :
    i < fs.nodes.length := by
  rcases List.getElem?_eq_some.mp h with ⟨hlt, _⟩
  exact hlt

lemma addEntry_get_dir {fs : FS} {c : Nat} {es : List (String × Nat)} (n : String) (i : Nat)
    (hc : fs.nodes[c]? = some (.dir es)) :
    (addEntry fs c n i).nodes[c]? = some (.dir (es ++ [(n, i)])) := by
  unfold addEntry
  simp only [hc]
  rw [setNode_get]
  simp [get_lt hc]

lemma addEntry_get_ne (fs : FS) {c j : Nat} (n : String) (i : Nat) (h : c ≠ j) :
    (addEntry fs c n i).nodes[j]? = fs.nodes[j]? := by
  unfold addEntry
  split
  · rw [setNode_get]; simp [h]
  · rfl

lemma lookup_append_none {es : List (String × Nat)} {n : String} (i : Nat)
    (h : es.lookup n = none) : (es ++ [(n, i)]).lookup n = some i := by
  rw [List.lookup_append, h]
  simp [List.lookup]

lemma sum_map_set (g : Node → Nat) (y : Node) :
    ∀ (l : List Node) (i : Nat) (x : Node), l[i]? = some x →
      ((l.set i y).map g).sum + g x = (l.map g).sum + g y := by
  intro l
  induction l with
  | nil => intro i x h; simp at h
  | cons a l ih =>
    intro i x h
    cases i with
    | zero =>
      simp only [List.getElem?_cons_zero, Option.some.injEq] at h
      subst h
      simp only [List.set_cons_zero, List.map_cons, List.sum_cons]
      omega
    | succ i =>
      simp only [List.getElem?_cons_succ] at h
      have := ih i x h
      simp only [List.set_cons_succ, List.map_cons, List.sum_cons]
      omega

lemma link_grows (fs : FS) (s d : Path) : Grows fs (link fs s d).1 := by
  unfold link
  split
  · split
    · exact grows_refl _
    · exact grows_refl _
    · split
      · exact addEntry_grows _ _ _ _
      · exact grows_refl _
  · exact grows_refl _

lemma openWrite_grows (fs : FS) (p : Path) : Grows fs (openWrite fs p).1 := by
  unfold openWrite
  split
  · split
    · rename_i h
      exact setNode_grows h (by simp [NodeExt])
    · exact grows_refl _
  · exact addNode_grows _ _ _ _
  · exact grows_refl _

lemma writeTo_grows (fs : FS) (j : Nat) (bytes : List Nat) : Grows fs (writeTo fs j bytes) := by
  unfold writeTo
  split
  · rename_i h
    exact setNode_grows h (by simp [NodeExt])
  · exact grows_refl _

lemma create_symlink_grows {fs fs2 : FS} {t : Path × Bool} {p : Path}
    (h : create_symlink fs t p = some fs2) : Grows fs fs2 := by
  unfold create_symlink at h
  split at h
  · cases h; exact addNode_grows _ _ _ _
  · cases h

lemma mkdirStep_grows {fs fs2 : FS} {p : Path} (h : mkdirStep fs p = some fs2) :
    Grows fs fs2 := by
  unfold mkdirStep at h
  split at h
  · split at h
    · cases h; exact grows_refl _
    · cases h
  · cases h
  · split at h
    · cases h; exact addNode_grows _ _ _ _
    · cases h

lemma createFrom_grows (rest : Path) :
    ∀ (fs fs2 : FS) (done : Path), createFrom fs done rest = some fs2 → Grows fs fs2 := by
  induction rest with
  | nil => intro fs fs2 done h; exact mkdirStep_grows h
  | cons n rest ih =>
    intro fs fs2 done h
    unfold createFrom at h
    split at h
    · rename_i fs1 h1
      exact grows_trans (mkdirStep_grows h1) (ih _ _ _ h)
    · cases h

lemma create_directories_grows {fs fs2 : FS} {p : Path}
    (h : create_directories fs p = some fs2) : Grows fs fs2 :=
  createFrom_grows p fs fs2 [] h

lemma cpFile_grows (fs : FS) (s d : Path) : Grows fs (cpFile fs s d).fs := by
  unfold cpFile
  dsimp only
  split
  · exact grows_trans (openWrite_grows fs d) (writeTo_grows _ _ _)
  · exact openWrite_grows fs d

lemma cpSoftLink_grows (fs : FS) (s d : Path) : Grows fs (cpSoftLink fs s d).fs := by
  unfold cpSoftLink
  dsimp only
  split
  · exact grows_refl _
  · exact grows_refl _
  · split
    · exact grows_refl _
    · split
      · exact grows_refl _
      · rename_i h; exact create_symlink_grows h

lemma cpHardLink_grows (fs : FS) (s d : Path) : Grows fs (cpHardLink fs s d).fs := by
  unfold cpHardLink
  split
  · exact grows_refl _
  · exact grows_refl _
  · split
    · exact grows_refl _
    · dsimp only
      split
      · split <;> exact link_grows _ _ _
      · exact grows_refl _

lemma runTask_grows (recur : FS → Path → Path → Int → Run)
    (hrec : ∀ fs s d n, Grows fs (recur fs s d n).fs) (fs : FS) (t : Task) :
    Grows fs (runTask recur fs t).fs := by
  cases t with
  | cpDirectory s d n => exact hrec _ _ _ _
  | cpSoftLink s d => exact cpSoftLink_grows _ _ _
  | cpHardLink s d => exact cpHardLink_grows _ _ _
  | cpFile s d => exact cpFile_grows _ _ _

lemma cpLoop_grows (recur : FS → Path → Path → Int → Run)
    (hrec : ∀ fs s d n, Grows fs (recur fs s d n).fs) (src dst : Path) (n : Int)
    (names : List String) : ∀ fs, Grows fs (cpLoop recur src dst n fs names).1.fs := by
  induction names with
  | nil => intro fs; exact grows_refl _
  | cons name names ih =>
    intro fs
    unfold cpLoop
    dsimp only
    split
    · exact grows_refl _
    · exact ih _
    · split
      · exact grows_trans (runTask_grows recur hrec fs _) (ih _)
      · exact runTask_grows recur hrec fs _

lemma cpDirectory_grows (fuel : Nat) :
    ∀ fs src dst n, Grows fs (cpDirectory fuel fs src dst n).fs := by
  induction fuel with
  | zero => intro fs src dst n; exact grows_refl _
  | succ fuel ih =>
    intro fs src dst n
    unfold cpDirectory
    dsimp only
    split
    · exact grows_refl _
    · rename_i fs1 h1
      have g1 := create_directories_grows h1
      split
      · exact g1
      · split
        · exact grows_trans g1 (cpLoop_grows _ ih _ _ _ _ _)
        · exact grows_trans g1 (cpLoop_grows _ ih _ _ _ _ _)

lemma writeTo_get_self {fs : FS} {j : Nat} {c : List Nat} {r w : Bool} (bytes : List Nat)
    (h : fs.nodes[j]? = some (.file c r w)) :
    (writeTo fs j bytes).nodes[j]? = some (.file (c ++ bytes) r w) := by
  unfold writeTo
  simp only [h]
  rw [setNode_get]
  simp [get_lt h]

lemma writeTo_get_ne (fs : FS) {i j : Nat} (bytes : List Nat) (h : j ≠ i) :
    (writeTo fs j bytes).nodes[i]? = fs.nodes[i]? := by
  unfold writeTo
  split
  · rw [setNode_get]; simp [h]
  · rfl

lemma readFile_of {fs : FS} {p : Path} {i : Nat} {c : List Nat} {r w : Bool}
    (hs : stat fs p = .found i) (hn : fs.nodes[i]? = some (.file c r w)) :
    readFile fs p = some c := by
  simp [readFile, hs, hn]

lemma openRead_some {fs : FS} {p : Path} {i : Nat} (h : openRead fs p = some i) :
    stat fs p = .found i ∧ ∃ c w, fs.nodes[i]? = some (.file c true w) := by
  unfold openRead at h
  split at h
  · rename_i i0 hs
    split at h
    · rename_i c w hn
      cases h
      exact ⟨hs, c, w, hn⟩
    · cases h
  · cases h

/-- What a good `ofstream` leaves: the path resolves to the inode written to,
which is an empty writable regular file; every other inode that is not a
directory is as before. -/
lemma openWrite_some {fs : FS} {p : Path} {j : Nat} (h : (openWrite fs p).2 = some j) :
    stat (openWrite fs p).1 p = .found j ∧
      (∃ r, (openWrite fs p).1.nodes[j]? = some (.file [] r true)) ∧
      (∀ i c r w, i ≠ j → fs.nodes[i]? = some (.file c r w) →
        (openWrite fs p).1.nodes[i]? = some (.file c r w)) := by
  have hg := openWrite_grows fs p
  unfold openWrite at h hg ⊢
  split at h
  · rename_i j0 hs
    split at h
    · rename_i c r hn
      simp only [Option.some.injEq] at h
      subst h
      simp only [hs, hn] at hg ⊢
      refine ⟨stat_found_grows hg hs, ⟨r, ?_⟩, ?_⟩
      · rw [setNode_get]; simp [get_lt hn]
      · intro i c r w hij hi
        rw [setNode_get]; simp [Ne.symm hij, hi]
    · cases h
  · rename_i c n hs
    simp only [Option.some.injEq] at h
    subst h
    simp only [hs] at hg ⊢
    obtain ⟨es, hc, hl⟩ := resolveN_missing_dir true _ _ _ hs
    have hclt : c < fs.nodes.length := get_lt hc
    have hc1 : ({ fs with nodes := fs.nodes ++ [Node.file [] true true] } : FS).nodes[c]?
        = some (.dir es) := push_get_old hc
    have hnew : (addNode fs c n (.file [] true true)).nodes[fs.nodes.length]?
        = some (.file [] true true) := by
      unfold addNode
      rw [addEntry_get_ne _ _ _ (by omega)]
      simp
    refine ⟨?_, ⟨true, hnew⟩, ?_⟩
    · unfold stat at hs ⊢
      rw [hg.loopMax]
      refine resolveN_missing_grows hg true (addEntry_get_dir n _ hc1)
        (lookup_append_none _ hl) hnew (Or.inr ?_) _ _ _ hs
      intro t a hne
      cases hne
    · intro i c0 r w hij hi
      have hic : c ≠ i := by
        intro e
        subst e
        rw [hc] at hi
        cases hi
      unfold addNode
      rw [addEntry_get_ne _ _ _ hic]
      exact push_get_old hi
  · cases h

lemma cpLoop_append (recur : FS → Path → Path → Int → Run) (src dst : Path) (n : Int)
    (xs ys : List String) :
    ∀ fs, (cpLoop recur src dst n fs xs).1.st = .ok →
      cpLoop recur src dst n fs (xs ++ ys) =
        (⟨(cpLoop recur src dst n (cpLoop recur src dst n fs xs).1.fs ys).1.fs,
          (cpLoop recur src dst n fs xs).1.log ++
            (cpLoop recur src dst n (cpLoop recur src dst n fs xs).1.fs ys).1.log,
          (cpLoop recur src dst n (cpLoop recur src dst n fs xs).1.fs ys).1.st⟩,
         (cpLoop recur src dst n fs xs).2 ++
            (cpLoop recur src dst n (cpLoop recur src dst n fs xs).1.fs ys).2) := by
  induction xs with
  | nil => intro fs _; simp [cpLoop]
  | cons x xs ih =>
    intro fs h
    simp only [List.cons_append, cpLoop] at h ⊢
    cases hd : dispatch fs (src ++ [x]) (dst ++ [x]) n with
    | none => simp [hd] at h
    | some o =>
      cases o with
      | none =>
        simp only [hd, List.append_eq] at h ⊢
        rw [ih fs h]
        simp
      | some t =>
        simp only [hd] at h ⊢
        cases hst : (runTask recur fs t).st with
        | ok =>
          simp only [hst, List.append_eq] at h ⊢
          rw [ih _ h]
          simp
        | aborted => simp [hst] at h
        | outOfFuel => simp [hst] at h

lemma cpFile_unreadable {fs : FS} {s d : Path} (h : openRead fs s = none) :
    cpFile fs s d =
      ⟨(openWrite fs d).1, [.out (.copyingFile s d), .out .failedToGetFile], .ok⟩ := by
  unfold cpFile
  simp [h]

/-- Opening a stream for writing leaves every inode alone that is neither a
directory nor the file the path resolves to. -/
lemma openWrite_frame (fs : FS) (p : Path) (i : Nat) (nd : Node)
    (hi : fs.nodes[i]? = some nd) (hne : stat fs p ≠ .found i) (hnd : ∀ es, nd ≠ .dir es) :
    (openWrite fs p).1.nodes[i]? = some nd := by
  unfold openWrite
  split
  · rename_i j hs
    split
    · have hij : j ≠ i := by
        intro e
        subst e
        exact hne hs
      rw [setNode_get]
      simp [hij, hi]
    · exact hi
  · rename_i c n hs
    obtain ⟨es, hc, _⟩ := resolveN_missing_dir true _ _ _ hs
    have hic : c ≠ i := by
      intro e
      subst e
      rw [hc] at hi
      cases hi
      exact hnd es rfl
    unfold addNode
    rw [addEntry_get_ne _ _ _ hic]
    exact push_get_old hi
  · exact hi

/-- The loop on a listing whose entry `name` is an unreadable regular file. -/
lemma cpLoop_unreadable (recur : FS → Path → Path → Int → Run) (src dst : Path) (n : Int)
    (fs : FS) (name : String) (rest : List String)
    (hd : dispatch fs (src ++ [name]) (dst ++ [name]) n
      = some (some (.cpFile (src ++ [name]) (dst ++ [name]))))
    (hu : openRead fs (src ++ [name]) = none) :
    cpLoop recur src dst n fs (name :: rest) =
      (⟨(cpLoop recur src dst n (openWrite fs (dst ++ [name])).1 rest).1.fs,
        .out (.copying (src ++ [name]) (dst ++ [name])) ::
          .spawn (.cpFile (src ++ [name]) (dst ++ [name])) ::
          ([.out (.copyingFile (src ++ [name]) (dst ++ [name])), .out .failedToGetFile] ++
            (cpLoop recur src dst n (openWrite fs (dst ++ [name])).1 rest).1.log),
        (cpLoop recur src dst n (openWrite fs (dst ++ [name])).1 rest).1.st⟩,
       .cpFile (src ++ [name]) (dst ++ [name]) ::
        (cpLoop recur src dst n (openWrite fs (dst ++ [name])).1 rest).2) := by
  simp only [cpLoop, hd, runTask, cpFile_unreadable hu]

lemma steps_refl (fs : FS) : Steps fs fs := ⟨grows_refl fs, fun _ => le_refl _⟩

lemma linkCount_setNode {fs : FS} {c : Nat} {x y : Node} (i : Nat)
    (hc : fs.nodes[c]? = some x) (hle : entriesTo i x ≤ entriesTo i y) :
    linkCount fs i ≤ linkCount (setNode fs c y) i := by
  unfold linkCount setNode
  have := sum_map_set (entriesTo i) y fs.nodes c x hc
  simp only at this ⊢
  omega

lemma linkCount_push (fs : FS) (nd : Node) (i : Nat) :
    linkCount fs i ≤ linkCount { fs with nodes := fs.nodes ++ [nd] } i := by
  unfold linkCount
  simp

lemma linkCount_addEntry (fs : FS) (c : Nat) (n : String) (j i : Nat) :
    linkCount fs i ≤ linkCount (addEntry fs c n j) i := by
  unfold addEntry
  split
  · rename_i es hc
    refine linkCount_setNode i hc ?_
    simp only [entriesTo, List.filter_append, List.length_append]
    omega
  · exact le_refl _

lemma addEntry_steps (fs : FS) (c : Nat) (n : String) (j : Nat) :
    Steps fs (addEntry fs c n j) :=
  ⟨addEntry_grows fs c n j, linkCount_addEntry fs c n j⟩

lemma addNode_steps (fs : FS) (c : Nat) (n : String) (nd : Node) :
    Steps fs (addNode fs c n nd) :=
  ⟨addNode_grows fs c n nd,
    fun i => le_trans (linkCount_push fs nd i) (linkCount_addEntry _ c n _ i)⟩

lemma link_steps (fs : FS) (s d : Path) : Steps fs (link fs s d).1 := by
  unfold link
  split
  · split
    · exact steps_refl _
    · exact steps_refl _
    · split
      · exact addEntry_steps _ _ _ _
      · exact steps_refl _
  · exact steps_refl _

lemma create_symlink_steps {fs fs2 : FS} {t : Path × Bool} {p : Path}
    (h : create_symlink fs t p = some fs2) : Steps fs fs2 := by
  unfold create_symlink at h
  split at h
  · cases h; exact addNode_steps _ _ _ _
  · cases h

lemma openWrite_steps (fs : FS) (p : Path) : Steps fs (openWrite fs p).1 := by
  unfold openWrite
  split
  · split
    · rename_i h
      exact ⟨setNode_grows h (by simp [NodeExt]),
        fun i => linkCount_setNode i h (by simp [entriesTo])⟩
    · exact steps_refl _
  · exact addNode_steps _ _ _ _
  · exact steps_refl _

lemma writeTo_steps (fs : FS) (j : Nat) (bytes : List Nat) : Steps fs (writeTo fs j bytes) := by
  unfold writeTo
  split
  · rename_i h
    exact ⟨setNode_grows h (by simp [NodeExt]),
      fun i => linkCount_setNode i h (by simp [entriesTo])⟩
  · exact steps_refl _

/-! # The claims -/

/-- C8: every task created anywhere in the recursion of
`cpDirectory(srcRoot, dstRoot, n)` gets the source path `srcRoot/c1/../ck` and
the destination path `dstRoot/c1/../ck` for one non-empty sequence of name
components; so every destination path lies below `dstRoot`, and two tasks with
different source paths get different destination paths. -/
theorem cpDirectory_destination_paths (fuel : Nat) (fs : FS) (srcRoot dstRoot : Path)
    (n : Int) :
    (∀ t, Event.spawn t ∈ (cpDirectory fuel fs srcRoot dstRoot n).log →
      ∃ cs : List String, cs ≠ [] ∧ t.src = srcRoot ++ cs ∧ t.dst = dstRoot ++ cs) ∧
    (∀ t1 t2, Event.spawn t1 ∈ (cpDirectory fuel fs srcRoot dstRoot n).log →
      Event.spawn t2 ∈ (cpDirectory fuel fs srcRoot dstRoot n).log →
      t1.src ≠ t2.src → t1.dst ≠ t2.dst) := by
  refine ⟨fun t h => cpDirectory_under fuel fs srcRoot dstRoot n t h, ?_⟩
  intro t1 t2 h1 h2 hne hd
  obtain ⟨cs1, _, a1, b1⟩ := cpDirectory_under fuel fs srcRoot dstRoot n t1 h1
  obtain ⟨cs2, _, a2, b2⟩ := cpDirectory_under fuel fs srcRoot dstRoot n t2 h2
  rw [b1, b2] at hd
  have : cs1 = cs2 := List.append_cancel_left hd
  exact hne (by rw [a1, a2, this])

/-- The path invariant on the scenario tree, at the task for `sub/b.txt` and the
task for `link`. -/
theorem cpDirectory_destination_paths_witness :
    (∃ cs : List String, cs ≠ [] ∧
      (Task.cpFile ["src", "sub", "b.txt"] ["dest", "sub", "b.txt"]).src = ["src"] ++ cs ∧
      (Task.cpFile ["src", "sub", "b.txt"] ["dest", "sub", "b.txt"]).dst = ["dest"] ++ cs) ∧
    (Task.cpFile ["src", "sub", "b.txt"] ["dest", "sub", "b.txt"]).dst ≠
      (Task.cpSoftLink ["src", "link"] ["dest", "link"]).dst :=
  ⟨(cpDirectory_destination_paths 5 fsScenario ["src"] ["dest"] 4).1 _ (by decide),
   (cpDirectory_destination_paths 5 fsScenario ["src"] ["dest"] 4).2 _ _
     (by decide) (by decide) (by decide)⟩

/-- C3, as amended: when the source stream opens on inode `i`, the destination
stream opens on inode `j` and the two are different files, then after
`cpFile(s, d)` reading `d` gives exactly the bytes `s` had (whatever `d` held
before, whether or not it existed), and reading `s` still gives those bytes. -/
theorem cpFile_copies_content (fs : FS) (s d : Path) (i j : Nat)
    (hs : openRead fs s = some i) (hd : (openWrite fs d).2 = some j) (hij : i ≠ j) :
    readFile fs s = some (contentOf fs i) ∧
      readFile (cpFile fs s d).fs d = some (contentOf fs i) ∧
      readFile (cpFile fs s d).fs s = some (contentOf fs i) ∧
      (cpFile fs s d).st = .ok := by
  obtain ⟨hst, c, w, hn⟩ := openRead_some hs
  obtain ⟨hd1, ⟨r, hj⟩, hframe⟩ := openWrite_some hd
  have hc : contentOf fs i = c := by simp [contentOf, hn]
  have hi1 : (openWrite fs d).1.nodes[i]? = some (.file c true w) := hframe i c true w hij hn
  have hc1 : contentOf (openWrite fs d).1 i = c := by simp [contentOf, hi1]
  have hrun : cpFile fs s d = ⟨writeTo (openWrite fs d).1 j c,
      [.out (.copyingFile s d)], .ok⟩ := by
    unfold cpFile
    simp [hs, hd, hc1]
  have hg1 := openWrite_grows fs d
  have hg2 := writeTo_grows (openWrite fs d).1 j c
  rw [hrun, hc]
  refine ⟨readFile_of hst hn, ?_, ?_, rfl⟩
  · have := writeTo_get_self c hj
    exact readFile_of (stat_found_grows hg2 hd1) (by simpa using this)
  · have e : (writeTo (openWrite fs d).1 j c).nodes[i]? = some (.file c true w) := by
      rw [writeTo_get_ne _ _ (Ne.symm hij)]
      exact hi1
    exact readFile_of (stat_found_grows (grows_trans hg1 hg2) hst) e

/-- Copying `/s` to the new name `/d` in the one-file system. -/
theorem cpFile_copies_content_witness :
    readFile fsOneFile ["s"] = some (contentOf fsOneFile 1) ∧
      readFile (cpFile fsOneFile ["s"] ["d"]).fs ["d"] = some (contentOf fsOneFile 1) ∧
      readFile (cpFile fsOneFile ["s"] ["d"]).fs ["s"] = some (contentOf fsOneFile 1) ∧
      (cpFile fsOneFile ["s"] ["d"]).st = .ok :=
  cpFile_copies_content fsOneFile ["s"] ["d"] 1 2 (by decide) (by decide) (by decide)

/-- C3 fails when the destination is a symbolic link to the source: `/s` is a
regular file with link count 1, `/d` is not a directory, both streams open,
and after `cpFile(/s, /d)` the source is empty. -/
theorem cpFile_truncates_linked_source :
    hard_link_count fsLinkToSource ["s"] = some 1 ∧
      status fsLinkToSource ["s"] = some .regular ∧
      is_directory fsLinkToSource ["d"] = some false ∧
      openRead fsLinkToSource ["s"] = some 1 ∧
      (openWrite fsLinkToSource ["d"]).2 = some 1 ∧
      readFile fsLinkToSource ["s"] = some [1, 2, 3] ∧
      readFile (cpFile fsLinkToSource ["s"] ["d"]).fs ["s"] = some [] ∧
      readFile (cpFile fsLinkToSource ["s"] ["d"]).fs ["d"] = some [] := by
  decide

/-- C7, as amended: for a child `src/name` whose classification does not
throw, the dispatch selects at most one action, always one of the four, and
the loop creates one thread for it; a directory (after following links) goes
to `cpDirectory`, any other symbolic link to `cpSoftLink`, so a symbolic link
never goes to `cpHardLink` or `cpFile`; a regular file that is not a symbolic
link goes to `cpHardLink` iff its link count exceeds 1 and to `cpFile`
otherwise; a child of any other kind (fifo, socket, device) gets no task. -/
theorem dispatch_classifies (fs : FS) (src dst : Path) (name : String) (n : Int) :
    (∀ t, dispatch fs (src ++ [name]) (dst ++ [name]) n = some (some t) →
      (t = .cpDirectory (src ++ [name]) (dst ++ [name]) n ∨
        t = .cpSoftLink (src ++ [name]) (dst ++ [name]) ∨
        t = .cpHardLink (src ++ [name]) (dst ++ [name]) ∨
        t = .cpFile (src ++ [name]) (dst ++ [name])) ∧
      ∀ recur, (cpLoop recur src dst n fs [name]).2 = [t]) ∧
    (is_directory fs (src ++ [name]) = some true →
      dispatch fs (src ++ [name]) (dst ++ [name]) n
        = some (some (.cpDirectory (src ++ [name]) (dst ++ [name]) n))) ∧
    (is_directory fs (src ++ [name]) = some false → is_symlink fs (src ++ [name]) = some true →
      dispatch fs (src ++ [name]) (dst ++ [name]) n
        = some (some (.cpSoftLink (src ++ [name]) (dst ++ [name])))) ∧
    (is_symlink fs (src ++ [name]) = some true →
      dispatch fs (src ++ [name]) (dst ++ [name]) n
          ≠ some (some (.cpHardLink (src ++ [name]) (dst ++ [name]))) ∧
        dispatch fs (src ++ [name]) (dst ++ [name]) n
          ≠ some (some (.cpFile (src ++ [name]) (dst ++ [name])))) ∧
    (is_regular_file fs (src ++ [name]) = some true →
      is_symlink fs (src ++ [name]) = some false →
      ∀ c, hard_link_count fs (src ++ [name]) = some c →
        dispatch fs (src ++ [name]) (dst ++ [name]) n
          = some (some (if c > 1 then .cpHardLink (src ++ [name]) (dst ++ [name])
              else .cpFile (src ++ [name]) (dst ++ [name])))) ∧
    (is_directory fs (src ++ [name]) = some false →
      is_symlink fs (src ++ [name]) = some false →
      is_regular_file fs (src ++ [name]) = some false →
      dispatch fs (src ++ [name]) (dst ++ [name]) n = some none ∧
        ∀ recur, (cpLoop recur src dst n fs [name]).2 = []) := by
  refine ⟨?_, ?_, ?_, ?_, ?_, ?_⟩
  · intro t h
    refine ⟨(dispatch_paths h).2.2, fun recur => ?_⟩
    simp only [cpLoop, h]
    split <;> rfl
  · intro h; simp [dispatch, h]
  · intro h1 h2; simp [dispatch, h1, h2]
  · intro h
    cases hd : is_directory fs (src ++ [name]) with
    | none => simp [dispatch, hd]
    | some b => cases b <;> simp [dispatch, hd, h]
  · intro h1 h2 c h3
    have hd : is_directory fs (src ++ [name]) = some false := by
      unfold is_regular_file at h1
      unfold is_directory
      cases hs : status fs (src ++ [name]) with
      | none => simp [hs] at h1
      | some ft => cases ft <;> simp [hs] at h1 ⊢
    by_cases hc : c > 1 <;> simp [dispatch, hd, h1, h2, h3, hc]
  · intro h1 h2 h3
    have hd : dispatch fs (src ++ [name]) (dst ++ [name]) n = some none := by
      simp [dispatch, h1, h2, h3]
    exact ⟨hd, fun recur => by simp [cpLoop, hd]⟩

/-- The dispatch of the regular file `a.txt` of the scenario tree. -/
theorem dispatch_classifies_witness :
    dispatch fsScenario (["src"] ++ ["a.txt"]) (["dest"] ++ ["a.txt"]) 4
      = some (some (if 1 > 1 then .cpHardLink (["src"] ++ ["a.txt"]) (["dest"] ++ ["a.txt"])
          else .cpFile (["src"] ++ ["a.txt"]) (["dest"] ++ ["a.txt"]))) :=
  (dispatch_classifies fsScenario ["src"] ["dest"] "a.txt" 4).2.2.2.2.1
    (by decide) (by decide) 1 (by decide)

/-- C7 fails for a fifo: `/src/pipe` exists, the dispatch selects none of the
four actions, and the run of `cpDirectory` creates no thread at all. -/
theorem dispatch_skips_fifo :
    «exists» fsFifo ["src", "pipe"] = some true ∧
      directory_iterator fsFifo ["src"] = some ["pipe"] ∧
      dispatch fsFifo ["src", "pipe"] ["dest", "pipe"] 2 = some none ∧
      (cpDirectory 5 fsFifo ["src"] ["dest"] 2).st = .ok ∧
      spawned (cpDirectory 5 fsFifo ["src"] ["dest"] 2).log = [] := by
  decide

/-- On `/src/{o, u}` with `u` unreadable and `/dest/u -> o` already there, in
the schedule that handles `o` before `u`: the run completes, the only failure
line of the output is `Failed to get the file.`, and the copy `/dest/o` of the
sibling `o` ends empty, where the run without `u` leaves the bytes of
`/src/o`. -/
theorem unreadable_file_not_contained :
    status fsUnreadable ["src", "u"] = some .regular ∧
      openRead fsUnreadable ["src", "u"] = none ∧
      (cpDirectory 5 fsUnreadable ["src"] ["dest"] 2).st = .ok ∧
      (cpDirectory 5 fsUnreadable ["src"] ["dest"] 2).log.filter Event.isFailure
        = [.out .failedToGetFile] ∧
      Out.paths .failedToGetFile = [] ∧
      readFile fsUnreadable ["src", "o"] = some [1, 2] ∧
      readFile (cpDirectory 5 fsUnreadable ["src"] ["dest"] 2).fs ["dest", "o"] = some [] ∧
      (cpDirectory 5 fsUnreadableAbsent ["src"] ["dest"] 2).st = .ok ∧
      readFile (cpDirectory 5 fsUnreadableAbsent ["src"] ["dest"] 2).fs ["dest", "o"]
        = some [1, 2] := by
  decide

/-- C1 on `/src/{d/f, l -> d}` with no `/dest`: the run succeeds, `/src/l` is a
symbolic link, and `/dest/l` is a directory. -/
theorem link_to_directory_copied_as_directory :
    «exists» fsLinkToDir ["dest"] = some false ∧
      (cpDirectory 5 fsLinkToDir ["src"] ["dest"] 2).st = .ok ∧
      symlink_status fsLinkToDir ["src", "l"] = some .symlink ∧
      symlink_status (cpDirectory 5 fsLinkToDir ["src"] ["dest"] 2).fs ["dest", "l"]
        = some .directory := by
  decide

/-- C2 on `/src/{g/h, k -> /src/g}` with no `/dest`: the link `/src/k` has the
target `/src/g`, but the run follows it: a `cpDirectory` thread is created for
it, the file `h` below its referent is copied, and `/dest/k` is no symbolic
link, so it has no target string. -/
theorem link_to_directory_is_followed :
    read_symlink fsAbsLinkToDir ["src", "k"] = some (["src", "g"], true) ∧
      «exists» fsAbsLinkToDir ["dest", "k"] = some false ∧
      (cpDirectory 5 fsAbsLinkToDir ["src"] ["dest"] 2).st = .ok ∧
      Task.cpDirectory ["src", "k"] ["dest", "k"] 2 ∈
        spawned (cpDirectory 5 fsAbsLinkToDir ["src"] ["dest"] 2).log ∧
      Task.cpFile ["src", "k", "h"] ["dest", "k", "h"] ∈
        spawned (cpDirectory 5 fsAbsLinkToDir ["src"] ["dest"] 2).log ∧
      readFile (cpDirectory 5 fsAbsLinkToDir ["src"] ["dest"] 2).fs ["dest", "k", "h"]
        = some [5, 6] ∧
      read_symlink (cpDirectory 5 fsAbsLinkToDir ["src"] ["dest"] 2).fs ["dest", "k"]
        = none := by
  decide

/-- C5 on `/src/{x -> nowhere}`: the first run succeeds and leaves the link
`/dest/x`; the second run on that state is ended by an exception, because
`cpSoftLink` finds that `fs::exists` is false for the dangling link that is
there, and `create_symlink` throws. -/
theorem second_run_aborts_on_dangling_link :
    (cpDirectory 5 fsDangling ["src"] ["dest"] 2).st = .ok ∧
      symlink_status (cpDirectory 5 fsDangling ["src"] ["dest"] 2).fs ["dest", "x"]
        = some .symlink ∧
      «exists» (cpDirectory 5 fsDangling ["src"] ["dest"] 2).fs ["dest", "x"] = some false ∧
      (cpSoftLink (cpDirectory 5 fsDangling ["src"] ["dest"] 2).fs ["src", "x"]
        ["dest", "x"]).st = .aborted ∧
      (cpDirectory 5 (cpDirectory 5 fsDangling ["src"] ["dest"] 2).fs ["src"] ["dest"] 2).st
        = .aborted := by
  decide

/-- C6 on `/src/{p, q}`: whatever `numThreads` is, the run creates two threads
before it joins either, so with `numThreads = 1` more threads are in flight
than the bound allows. -/
theorem two_threads_in_flight_with_bound_one :
    (∀ n : Int, (cpDirectory 5 fsTwoFiles ["src"] ["dest"] n).st = .ok ∧
      spawned (cpDirectory 5 fsTwoFiles ["src"] ["dest"] n).log
        = [.cpFile ["src", "p"] ["dest", "p"], .cpFile ["src", "q"] ["dest", "q"]] ∧
      peakInFlight (cpDirectory 5 fsTwoFiles ["src"] ["dest"] n).log = 2) ∧
      ¬ (peakInFlight (cpDirectory 5 fsTwoFiles ["src"] ["dest"] 1).log ≤ 1) :=
  ⟨fun _ => ⟨rfl, rfl, rfl⟩, by decide⟩

set_option maxRecDepth 100000 in
lemma fsLoop_run :
    (cpDirectory 50 fsLoop ["src"] ["dest"] 2).st = .aborted ∧
      Task.cpDirectory ["src", "loop", "loop"] ["dest", "loop", "loop"] 2 ∈
        spawned (cpDirectory 50 fsLoop ["src"] ["dest"] 2).log ∧
      (spawned (cpDirectory 50 fsLoop ["src"] ["dest"] 2).log).length = 40 := by
  decide

/-- C10 on `/src/{loop -> /src}`, a source tree of height 1 whose only entry is
a link to the directory that holds it: `cpDirectory` recurses through the link
(there is a recursive call for `/src/loop/loop`, 40 nested calls in all) and
never returns normally: whatever the fuel, the run does not end with status
`ok`; with enough fuel it is ended by the exception of a path resolution that
fails with `ELOOP`. -/
theorem link_to_ancestor_recursion :
    directory_iterator fsLoop ["src"] = some ["loop"] ∧
      symlink_status fsLoop ["src", "loop"] = some .symlink ∧
      Task.cpDirectory ["src", "loop", "loop"] ["dest", "loop", "loop"] 2 ∈
        spawned (cpDirectory 50 fsLoop ["src"] ["dest"] 2).log ∧
      (cpDirectory 50 fsLoop ["src"] ["dest"] 2).st = .aborted ∧
      ∀ fuel, (cpDirectory fuel fsLoop ["src"] ["dest"] 2).st ≠ .ok := by
  refine ⟨by decide, by decide, fsLoop_run.2.1, fsLoop_run.1, ?_⟩
  intro fuel hok
  have h50 := fsLoop_run.1
  rcases Nat.le_total fuel 50 with h | h
  · have e := cpDirectory_fuel_le h fsLoop ["src"] ["dest"] 2 (by rw [hok]; decide)
    rw [e, hok] at h50
    cases h50
  · have e := cpDirectory_fuel_le h fsLoop ["src"] ["dest"] 2 (by rw [h50]; decide)
    rw [e, h50] at hok
    cases hok

end SyncMountPath
